import Mathlib

/-!
# TF2RconWrapper: the chat listener (`chatListener.go`)

A shallow embedding of `RconChatListener`: the secret registry
(`servers`), secret generation in `CreateServerListener`, `Close`, the
per-datagram routing task of `readStrings`, and the constructor
`NewRconChatListener`.

Conventions of the embedding.

* The Go map `servers map[string]*ServerListener` is a function
  `String → Option ServerListener`; `none` is the absent key.
* A `*ServerListener` is identified by the channel it owns: every
  `make(chan LogMessage)` yields a fresh channel handle, so two allocations
  never compare equal.
* `*TF2RconConnection` values live in a heap indexed by their address.
* `math/rand`, `strconv`, `net` and the log-line parser (`getSecret`,
  `proccessMessage`) are not part of the file: the random source is a
  stream of raw values reduced into range, `strconv.Itoa` is decimal
  printing, the outcomes of `net` calls and the two parser functions are
  parameters.
* Loops that need not end (`for ok`) carry a fuel argument; `none` means the
  fuel ran out before the loop ended.
-/

namespace TF2RconWrapper

/-! ## strconv.Itoa -/

/-- The decimal digit character of `d` (`d < 10`). -/
def digitOf (d : Nat) : Char := Char.ofNat (48 + d % 10)

/-- Most significant digit first, prepended to `acc`; `fuel` bounds the
number of digits written. -/
def formatDec : Nat → Nat → List Char → List Char
  | 0, _, acc => acc
  | fuel + 1, n, acc =>
    if n / 10 = 0 then digitOf n :: acc
    else formatDec fuel (n / 10) (digitOf n :: acc)

/-- Decimal digits of a natural number, `"0"` for zero. -/
def natDigits (n : Nat) : List Char := formatDec (n + 1) n []

/-- The function `strconv.Itoa`: base 10, a leading `-` for negative values. -/
def Itoa (i : Int) : String :=
  if i < 0 then String.mk ('-' :: natDigits i.natAbs) else String.mk (natDigits i.natAbs)

/-- Value of a digit string read in base 10 (no validation). -/
def decValue (cs : List Char) : Nat :=
  cs.foldl (fun acc c => 10 * acc + (c.toNat - 48)) 0

/-- The condition that `c` is one of `'0'..'9'`. -/
def isDecDigit (c : Char) : Bool := decide (48 ≤ c.toNat) && decide (c.toNat ≤ 57)

/-- The string `s` is the decimal representation of `n`: non-empty, digits
only (so no sign), no leading zero, and it reads back as `n`. -/
def IsDecimalOf (s : String) (n : Nat) : Prop :=
  s.data ≠ [] ∧ s.data.all isDecDigit = true ∧ s.data.head? ≠ some '0' ∧ decValue s.data = n

/-! ## Data model -/

/-- A byte slice. -/
abbrev Bytes := List Nat

/-- The type `ServerListener` (struct): `Messages` is the handle of the channel made for
it, `host` and `secret` as in the source. The back-pointer `listener` is
left out: the embedding has a single `RconChatListener`. -/
structure ServerListener where
  Messages : Nat
  host : String
  secret : String
deriving DecidableEq, Repr

/-- Commands issued on the control connection (`Query`, `RedirectLogs`,
`StopLogRedirection`); they are recorded, not interpreted. -/
inductive RconCommand where
  | query (cmd : String)
  | redirectLogs (ip port : String)
  | stopLogRedirection (ip port : String)
deriving DecidableEq, Repr

/-- The fields of `TF2RconConnection` the listener touches, and the commands
sent on it so far. -/
structure TF2RconConnection where
  host : String
  secret : String
  sent : List RconCommand
deriving DecidableEq, Repr

/-- The random source `*rand.Rand`: a stream of raw values and the number of draws so far. -/
structure Rand where
  src : Nat → Nat
  pos : Nat

/-- The method `rand.Intn(n)`: a value in `[0, n)` and the advanced source. -/
def Rand.Intn (g : Rand) (n : Nat) : Nat × Rand :=
  (g.src g.pos % n, { g with pos := g.pos + 1 })

/-- The registry `servers`. -/
abbrev Registry := String → Option ServerListener

/-- The statement `servers[secret] = s`. -/
def Registry.insert (servers : Registry) (secret : String) (s : ServerListener) : Registry :=
  fun k => if k = secret then some s else servers k

/-- The statement `delete(servers, secret)`. -/
def Registry.delete (servers : Registry) (secret : String) : Registry :=
  fun k => if k = secret then none else servers k

/-- The type `RconChatListener` (struct). `conn` is `none` for a nil `*net.UDPConn`; `addr`
and `conn` are the values returned by `net`. The lock and the unused `exit`
channel carry no data. -/
structure RconChatListener where
  conn : Option Nat
  servers : Registry
  addr : Nat
  localip : String
  port : String
  rng : Rand

/-- The listener together with the heap of connections and the channel
allocator. -/
structure World where
  r : RconChatListener
  conns : Nat → TF2RconConnection
  nextChan : Nat

/-! ## CreateServerListener and Close -/

/-- The size of the secret space: `Intn(999998) + 1` ranges over `1..999998`. -/
def secretSpace : Nat := 999998

/-- The loop `for ok { secret = Itoa(Intn(999998) + 1); _, ok = servers[secret] }`
entered with candidate `secret`. `fuel` bounds the number of redraws. -/
def redraw (servers : Registry) : Nat → String → Rand → Option (String × Rand)
  | 0, secret, g => if (servers secret).isSome then none else some (secret, g)
  | fuel + 1, secret, g =>
    if (servers secret).isSome then
      redraw servers fuel (Itoa (((g.Intn secretSpace).1 : Int) + 1)) (g.Intn secretSpace).2
    else some (secret, g)

/-- Store `secret` on connection `m`. -/
def setSecret (conns : Nat → TF2RconConnection) (m : Nat) (secret : String) :
    Nat → TF2RconConnection :=
  fun a => if a = m then { conns a with secret := secret } else conns a

/-- Record command `c` as sent on connection `m`. -/
def send (conns : Nat → TF2RconConnection) (m : Nat) (c : RconCommand) :
    Nat → TF2RconConnection :=
  fun a => if a = m then { conns a with sent := (conns a).sent ++ [c] } else conns a

/-- Lines 104-113 of `CreateServerListener`: first draw, the redraw loop under
the read lock, `m.secret = secret`. Returns the chosen secret. -/
def readSection (fuel : Nat) (w : World) (m : Nat) : Option (World × String) :=
  match redraw w.r.servers fuel (Itoa (((w.r.rng.Intn secretSpace).1 : Int) + 1))
      (w.r.rng.Intn secretSpace).2 with
  | none => none
  | some (secret, g) =>
    some ({ w with r := { w.r with rng := g }, conns := setSecret w.conns m secret }, secret)

/-- Lines 115-119: allocate the `ServerListener` (with a fresh channel) and
insert it under the write lock. -/
def writeSection (w : World) (m : Nat) (secret : String) : World × ServerListener :=
  let s : ServerListener := { Messages := w.nextChan, host := (w.conns m).host, secret := secret }
  ({ w with r := { w.r with servers := w.r.servers.insert secret s },
            nextChan := w.nextChan + 1 }, s)

/-- Lines 121-122: `m.Query("sv_logsecret " + secret)` and
`m.RedirectLogs(r.localip, r.port)`. -/
def configure (w : World) (m : Nat) (secret : String) : World :=
  let conns1 := send w.conns m (.query ("sv_logsecret " ++ secret))
  { w with conns := send conns1 m (.redirectLogs w.r.localip w.r.port) }

/-- The method `CreateServerListener(m)` run without interference. -/
def CreateServerListener (fuel : Nat) (w : World) (m : Nat) : Option (World × ServerListener) :=
  match readSection fuel w m with
  | none => none
  | some (w1, secret) =>
    some (configure (writeSection w1 m secret).1 m secret, (writeSection w1 m secret).2)

/-- The method `Close(m)`. -/
def Close (w : World) (m : Nat) : World :=
  { w with r := { w.r with servers := w.r.servers.delete (w.conns m).secret },
            conns := send w.conns m (.stopLogRedirection w.r.localip w.r.port) }

/-! ## Concurrent calls of CreateServerListener -/

/-- Where a call of `CreateServerListener` stands: before the read-locked
section, after it (holding its local `secret`), after the write-locked
insertion, and returned. -/
inductive CallPc where
  | start
  | drawn (secret : String)
  | inserted (secret : String) (s : ServerListener)
  | returned (s : ServerListener)
deriving DecidableEq, Repr

/-- A call in progress on connection `m`. -/
structure Call where
  m : Nat
  pc : CallPc
deriving DecidableEq, Repr

/-- One lock-delimited step of a call. -/
def Call.step (fuel : Nat) (w : World) (c : Call) : Option (World × Call) :=
  match c.pc with
  | .start =>
    match readSection fuel w c.m with
    | none => none
    | some (w1, secret) => some (w1, { c with pc := .drawn secret })
  | .drawn secret =>
    some ((writeSection w c.m secret).1, { c with pc := .inserted secret (writeSection w c.m secret).2 })
  | .inserted secret s => some (configure w c.m secret, { c with pc := .returned s })
  | .returned _ => some (w, c)

/-- Run the calls `cs` under the schedule `sched`: each entry names the call
that takes its next step. -/
def runSchedule (fuel : Nat) : World → List Call → List Nat → Option (World × List Call)
  | w, cs, [] => some (w, cs)
  | w, cs, i :: sched =>
    match cs.get? i with
    | none => runSchedule fuel w cs sched
    | some c =>
      match c.step fuel w with
      | none => none
      | some (w1, c1) => runSchedule fuel w1 (cs.set i c1) sched

/-! ## readStrings -/

/-- The read error of `ReadFromUDP`: whether it is a `*net.OpError`, and what
its `Timeout()` says. -/
structure ReadErr where
  opError : Bool
  timeout : Bool
deriving DecidableEq, Repr

/-- What a routing task does, in order. -/
inductive Event (M : Type) where
  | printed (e : ReadErr)
  | extracted (message : Bytes)
  | looked (secret : String)
  | parsed (message : Bytes)
  | logged (e : String)
  | sent (s : ServerListener) (msg : M)

/-- Lines 68-86: the task body from `message := buff[0:n]` on. `getSecret` and
`proccessMessage` return a value and an error (`none` for nil). -/
def routeMessage {M : Type} (getSecret : Bytes → String × Option String)
    (proccessMessage : Bytes → M × Option String) (servers : Registry)
    (message : Bytes) : List (Event M) :=
  match servers (getSecret message).1 with
  | none => [.extracted message, .looked (getSecret message).1]
  | some s =>
    match (proccessMessage message).2 with
    | some e => [.extracted message, .looked (getSecret message).1, .parsed message, .logged e]
    | none => [.extracted message, .looked (getSecret message).1, .parsed message,
        .sent s (proccessMessage message).1]

/-- Lines 59-87: the task spawned for one return `(n, _, err)` of
`ReadFromUDP(buff)`. The world is returned as the task leaves it. -/
def readStringsTask {M : Type} (getSecret : Bytes → String × Option String)
    (proccessMessage : Bytes → M × Option String) (w : World)
    (buff : Bytes) (n : Nat) (err : Option ReadErr) : World × List (Event M) :=
  match err with
  | some e =>
    if e.opError && e.timeout then (w, [])
    else (w, .printed e :: routeMessage getSecret proccessMessage w.r.servers (buff.take n))
  | none => (w, routeMessage getSecret proccessMessage w.r.servers (buff.take n))

/-- The sends `s.Messages <- msg` among the events. -/
def sends {M : Type} : List (Event M) → List (ServerListener × M)
  | [] => []
  | .sent s msg :: es => (s, msg) :: sends es
  | _ :: es => sends es

/-- The calls of `getSecret` and `proccessMessage` among the events. -/
def parserCalls {M : Type} : List (Event M) → Nat
  | [] => 0
  | .extracted _ :: es => parserCalls es + 1
  | .parsed _ :: es => parserCalls es + 1
  | _ :: es => parserCalls es

/-! ## NewRconChatListener -/

/-- What `startListening` does besides setting `conn`. -/
inductive StartEffect where
  | logged (e : String)
  | spawnReadStrings
deriving DecidableEq, Repr

/-- The method `startListening`; `listenUDP` is the outcome of `net.ListenUDP`. -/
def startListening (r : RconChatListener) (listenUDP : Nat → Except String Nat) :
    RconChatListener × List StartEffect :=
  match listenUDP r.addr with
  | .error e => ({ r with conn := none }, [.logged e])
  | .ok c => ({ r with conn := some c }, [.spawnReadStrings])

/-- The constructor `NewRconChatListener(localip, port)`: the returned pointer, the returned
error, and the effects of `startListening`. `src` is the stream behind the
seeded random source. -/
def NewRconChatListener (resolveUDPAddr : String → Except String Nat)
    (listenUDP : Nat → Except String Nat) (src : Nat → Nat) (localip port : String) :
    Option RconChatListener × Option String × List StartEffect :=
  match resolveUDPAddr (":" ++ port) with
  | .error e => (none, some e, [])
  | .ok addr =>
    let listener : RconChatListener :=
      ⟨none, fun _ => none, addr, localip, port, ⟨src, 0⟩⟩
    (some (startListening listener listenUDP).1, none, (startListening listener listenUDP).2)

/-! ## Reachable states -/

/-- States reached from a fresh listener (empty registry) by calls of
`CreateServerListener` that return and calls of `Close`. -/
inductive Reachable : World → Prop where
  | init (w : World) (h : ∀ k, w.r.servers k = none) : Reachable w
  | create (fuel : Nat) (w : World) (m : Nat) (w1 : World) (s : ServerListener)
      (hw : Reachable w) (h : CreateServerListener fuel w m = some (w1, s)) : Reachable w1
  | close (w : World) (m : Nat) (hw : Reachable w) : Reachable (Close w m)

/-- The `i`-th candidate secret drawn from `g` on: `Itoa(Intn(999998) + 1)` at
draw `g.pos + i`. -/
def candidateAt (g : Rand) (i : Nat) : String :=
  Itoa (((g.src (g.pos + i) % secretSpace : Nat) : Int) + 1)

/-- The source `g` after `i` draws. -/
def Rand.advance (g : Rand) (i : Nat) : Rand := { g with pos := g.pos + i }

/-- A registry in which every secret `1..999998` is live, all mapped to `s`. -/
def fullRegistry (s : ServerListener) : Registry :=
  fun k => if ∃ n, n < secretSpace ∧ k = Itoa ((n : Int) + 1) then some s else none

/-- The outcome of a call of `CreateServerListener(m)` in `w` whose read-locked
section ends with the candidate of draw `j`: the section's effects followed
by insertion and configuration. -/
def createdAt (w : World) (m j : Nat) : World × ServerListener :=
  let w0 : World := { w with r := { w.r with rng := w.r.rng.advance (j + 1) },
                             conns := setSecret w.conns m (candidateAt w.r.rng j) }
  (configure (writeSection w0 m (candidateAt w.r.rng j)).1 m (candidateAt w.r.rng j),
    (writeSection w0 m (candidateAt w.r.rng j)).2)

/-! ## Concrete states -/

/-- A listener just built on port 12345 (empty registry) whose random source
is the stream `src`, with connection `a` to host `Itoa a`. -/
def freshWorld (src : Nat → Nat) : World :=
  ⟨⟨some 0, fun _ => none, 0, "10.0.0.1", "12345", ⟨src, 0⟩⟩, fun a => ⟨Itoa a, "", []⟩, 0⟩

/-- The listener of `freshWorld` with secret `"42"` registered for a
`ServerListener` of host `"0"`. -/
def busyWorld (src : Nat → Nat) : World :=
  ⟨⟨some 0, Registry.insert (fun _ => none) "42" ⟨0, "0", "42"⟩, 0, "10.0.0.1", "12345", ⟨src, 0⟩⟩,
    fun a => ⟨Itoa a, if a = 0 then "42" else "", []⟩, 1⟩

/-- The listener of `freshWorld` with every secret `1..999998` live. -/
def fullWorld (src : Nat → Nat) : World :=
  ⟨⟨some 0, fullRegistry ⟨0, "0", "1"⟩, 0, "10.0.0.1", "12345", ⟨src, 0⟩⟩,
    fun a => ⟨Itoa a, "", []⟩, 1⟩

/-- A stand-in for `getSecret` that reads the whole message as the secret and
reports the error `e`. -/
def secretOfBytes (e : Option String) (message : Bytes) : String × Option String :=
  (String.mk (message.map Char.ofNat), e)

/-- A stand-in for `proccessMessage` that succeeds with the message bytes. -/
def parseBytes (message : Bytes) : Bytes × Option String := (message, none)

/-! ## Decimal printing -/

theorem digitOf_facts (d : Nat) :
    isDecDigit (digitOf d) = true ∧ (digitOf d).toNat - 48 = d % 10 ∧
      (digitOf d = '0' → d % 10 = 0) := by
  have h : ∀ r, r < 10 → isDecDigit (Char.ofNat (48 + r)) = true ∧
      (Char.ofNat (48 + r)).toNat - 48 = r ∧ (Char.ofNat (48 + r) = '0' → r = 0) := by
    decide
  exact h (d % 10) (Nat.mod_lt _ (by norm_num))

theorem decValue_snoc (l : List Char) (c : Char) :
    decValue (l ++ [c]) = 10 * decValue l + (c.toNat - 48) := by
  simp [decValue, List.foldl_append]

theorem formatDec_spec : ∀ fuel n acc, n < fuel →
    ∃ l, formatDec fuel n acc = l ++ acc ∧ l ≠ [] ∧ l.all isDecDigit = true ∧
      (1 ≤ n → l.head? ≠ some '0') ∧ decValue l = n ∧
      (∀ m, 1 ≤ m → n < 10 ^ m → l.length ≤ m) := by
  intro fuel
  induction fuel with
  | zero => intro n acc h; omega
  | succ fuel ih =>
    intro n acc hn
    obtain ⟨hd1, hd2, hd3⟩ := digitOf_facts n
    by_cases h0 : n / 10 = 0
    · refine ⟨[digitOf n], ?_, by simp, by simp [hd1], ?_, ?_, ?_⟩
      · simp [formatDec, h0]
      · intro h1 hh
        simp at hh
        have := hd3 hh
        omega
      · simp [decValue, hd2]; omega
      · intro m hm _; simpa using hm
    · have hlt : n / 10 < fuel := by omega
      obtain ⟨l, hl, hne, hall, hhead, hval, hlen⟩ := ih (n / 10) (digitOf n :: acc) hlt
      refine ⟨l ++ [digitOf n], ?_, by simp, ?_, ?_, ?_, ?_⟩
      · simp [formatDec, h0, hl]
      · simp [List.all_append, hall, hd1]
      · intro _
        have := hhead (by omega)
        cases l with
        | nil => exact absurd rfl hne
        | cons a t => simpa using this
      · rw [decValue_snoc, hval, hd2]; omega
      · intro m hm hpow
        cases m with
        | zero => omega
        | succ m =>
          have hm1 : 1 ≤ m := by
            rcases Nat.eq_zero_or_pos m with h | h
            · subst h; simp at hpow; omega
            · exact h
          have : n / 10 < 10 ^ m := by
            rw [pow_succ] at hpow; omega
          have := hlen m hm1 this
          simp; omega

theorem natDigits_spec (n : Nat) :
    natDigits n ≠ [] ∧ (natDigits n).all isDecDigit = true ∧
      (1 ≤ n → (natDigits n).head? ≠ some '0') ∧ decValue (natDigits n) = n ∧
      (∀ m, 1 ≤ m → n < 10 ^ m → (natDigits n).length ≤ m) := by
  obtain ⟨l, hl, h⟩ := formatDec_spec (n + 1) n [] (Nat.lt_succ_self n)
  have : natDigits n = l := by simp [natDigits, hl]
  rw [this]; exact h

/-- A candidate secret: `strconv.Itoa(k + 1)` for a draw `k`. -/
theorem Itoa_candidate (k : Nat) (hk : k < secretSpace) :
    IsDecimalOf (Itoa ((k : Int) + 1)) (k + 1) ∧ (Itoa ((k : Int) + 1)).length ≤ 6 := by
  have hnn : ¬ ((k : Int) + 1 < 0) := by omega
  have habs : ((k : Int) + 1).natAbs = k + 1 := by omega
  obtain ⟨h1, h2, h3, h4, h5⟩ := natDigits_spec (k + 1)
  have hlen := h5 6 (by norm_num) (by simp [secretSpace] at hk; omega)
  simp only [Itoa, hnn, if_false, habs, IsDecimalOf, String.length]
  exact ⟨⟨h1, h2, h3 (by omega), h4⟩, hlen⟩

/-! ## The redraw loop -/

theorem Intn_fst (g : Rand) : Itoa (((g.Intn secretSpace).1 : Int) + 1) = candidateAt g 0 := by
  simp [Rand.Intn, candidateAt]

theorem Intn_snd (g : Rand) : (g.Intn secretSpace).2 = g.advance 1 := rfl

theorem candidateAt_advance (g : Rand) (i j : Nat) :
    candidateAt (g.advance i) j = candidateAt g (i + j) := by
  simp [candidateAt, Rand.advance, Nat.add_assoc]

theorem advance_advance (g : Rand) (i j : Nat) : (g.advance i).advance j = g.advance (i + j) := by
  simp [Rand.advance, Nat.add_assoc]

/-- The loop ends at the first free candidate, after as many redraws as there
are live candidates before it. -/
theorem redraw_first_free (servers : Registry) :
    ∀ (j fuel : Nat) (g : Rand), j ≤ fuel →
      (∀ i, i < j → (servers (candidateAt g i)).isSome = true) →
      servers (candidateAt g j) = none →
      redraw servers fuel (candidateAt g 0) (g.advance 1)
        = some (candidateAt g j, g.advance (j + 1)) := by
  intro j
  induction j with
  | zero =>
    intro fuel g _ _ hfree
    cases fuel <;> simp [redraw, hfree]
  | succ j ih =>
    intro fuel g hle hlive hfree
    cases fuel with
    | zero => omega
    | succ fuel =>
      have h0 := hlive 0 (by omega)
      have hstep := ih fuel (g.advance 1) (by omega)
        (fun i hi => by rw [candidateAt_advance]; exact hlive (1 + i) (by omega))
        (by rw [candidateAt_advance, Nat.add_comm]; exact hfree)
      rw [candidateAt_advance, advance_advance, advance_advance] at hstep
      simp only [redraw, h0, if_true, Intn_fst, Intn_snd]
      rw [advance_advance, candidateAt_advance, hstep]
      simp [candidateAt_advance, Nat.add_comm, Nat.add_left_comm]

/-- What the loop returns is not a key of the registry. -/
theorem redraw_free (servers : Registry) :
    ∀ (fuel : Nat) (c : String) (g : Rand) (secret : String) (g1 : Rand),
      redraw servers fuel c g = some (secret, g1) → servers secret = none := by
  intro fuel
  induction fuel with
  | zero =>
    intro c g secret g1 h
    by_cases hc : (servers c).isSome = true
    · simp [redraw, hc] at h
    · simp [redraw, hc] at h
      obtain ⟨rfl, _⟩ := h
      simpa using hc
  | succ fuel ih =>
    intro c g secret g1 h
    by_cases hc : (servers c).isSome = true
    · simp only [redraw, hc, if_true] at h
      exact ih _ _ _ _ h
    · simp [redraw, hc] at h
      obtain ⟨rfl, _⟩ := h
      simpa using hc

/-- What the loop returns is the candidate it was entered with or a later draw. -/
theorem redraw_candidate (servers : Registry) :
    ∀ (fuel : Nat) (c : String) (g : Rand) (secret : String) (g1 : Rand),
      redraw servers fuel c g = some (secret, g1) →
      secret = c ∨ ∃ k, k < secretSpace ∧ secret = Itoa ((k : Int) + 1) := by
  intro fuel
  induction fuel with
  | zero =>
    intro c g secret g1 h
    by_cases hc : (servers c).isSome = true
    · simp [redraw, hc] at h
    · simp [redraw, hc] at h
      exact Or.inl h.1.symm
  | succ fuel ih =>
    intro c g secret g1 h
    by_cases hc : (servers c).isSome = true
    · simp only [redraw, hc, if_true] at h
      rcases ih _ _ _ _ h with h1 | h1
      · right
        exact ⟨g.src g.pos % secretSpace, Nat.mod_lt _ (by decide), by rw [h1]; rfl⟩
      · exact Or.inr h1
    · simp [redraw, hc] at h
      exact Or.inl h.1.symm

/-- If some candidate of the draw sequence is free, one of them is the first. -/
theorem first_free (servers : Registry) (g : Rand) (j : Nat)
    (h : servers (candidateAt g j) = none) :
    ∃ j0, j0 ≤ j ∧ servers (candidateAt g j0) = none ∧
      ∀ i, i < j0 → (servers (candidateAt g i)).isSome = true := by
  classical
  have hex : ∃ i, servers (candidateAt g i) = none := ⟨j, h⟩
  refine ⟨Nat.find hex, Nat.find_min' hex h, Nat.find_spec hex, ?_⟩
  intro i hi
  have := Nat.find_min hex hi
  cases hs : servers (candidateAt g i) with
  | none => exact absurd hs this
  | some s => rfl

/-! ## CreateServerListener, run alone -/

/-- With the first free candidate at draw `j`, the read-locked section ends
with it, after `j` redraws. -/
theorem readSection_first_free (w : World) (m j fuel : Nat) (hle : j ≤ fuel)
    (hlive : ∀ i, i < j → (w.r.servers (candidateAt w.r.rng i)).isSome = true)
    (hfree : w.r.servers (candidateAt w.r.rng j) = none) :
    readSection fuel w m =
      some ({ w with r := { w.r with rng := w.r.rng.advance (j + 1) },
                     conns := setSecret w.conns m (candidateAt w.r.rng j) },
            candidateAt w.r.rng j) := by
  have h := redraw_first_free w.r.servers j fuel w.r.rng hle hlive hfree
  simp only [readSection, Intn_fst, Intn_snd, h]

/-- With the first free candidate at draw `j`, a call run alone returns
`createdAt w m j`. -/
theorem CreateServerListener_first_free (w : World) (m j fuel : Nat) (hle : j ≤ fuel)
    (hlive : ∀ i, i < j → (w.r.servers (candidateAt w.r.rng i)).isSome = true)
    (hfree : w.r.servers (candidateAt w.r.rng j) = none) :
    CreateServerListener fuel w m = some (createdAt w m j) := by
  have h := readSection_first_free w m j fuel hle hlive hfree
  simp only [CreateServerListener, h, createdAt]

/-- What a returning call leaves behind. -/
theorem CreateServerListener_post (fuel : Nat) (w : World) (m : Nat) (w1 : World)
    (s : ServerListener) (h : CreateServerListener fuel w m = some (w1, s)) :
    w.r.servers s.secret = none ∧ w1.r.servers s.secret = some s ∧
      (w1.conns m).secret = s.secret ∧
      (∀ k s0, w.r.servers k = some s0 → w1.r.servers k = some s0) ∧
      (∀ k, k ≠ s.secret → w1.r.servers k = w.r.servers k) ∧
      (∃ k, k < secretSpace ∧ s.secret = Itoa ((k : Int) + 1)) := by
  unfold CreateServerListener at h
  cases hr : readSection fuel w m with
  | none => simp [hr] at h
  | some p =>
    obtain ⟨w0, secret⟩ := p
    simp only [hr, Option.some.injEq, Prod.mk.injEq] at h
    obtain ⟨hw, hs⟩ := h
    unfold readSection at hr
    cases hd : redraw w.r.servers fuel (Itoa (((w.r.rng.Intn secretSpace).1 : Int) + 1))
        (w.r.rng.Intn secretSpace).2 with
    | none => simp [hd] at hr
    | some q =>
      obtain ⟨c, g⟩ := q
      simp only [hd, Option.some.injEq, Prod.mk.injEq] at hr
      obtain ⟨hw0, hc⟩ := hr
      subst hc
      have hfree := redraw_free _ _ _ _ _ _ hd
      have hcand := redraw_candidate _ _ _ _ _ _ hd
      subst hw hs hw0
      refine ⟨hfree, ?_, ?_, ?_, ?_, ?_⟩
      · simp [writeSection, configure, Registry.insert]
      · simp [writeSection, configure, send, setSecret]
      · intro k s0 hk
        have hne : k ≠ c := by
          rintro rfl
          rw [hfree] at hk
          cases hk
        simp [writeSection, configure, Registry.insert, hne, hk]
      · intro k hne
        have hne1 : k ≠ c := hne
        simp [writeSection, configure, Registry.insert, hne1]
      · rcases hcand with h1 | h1
        · exact ⟨w.r.rng.src w.r.rng.pos % secretSpace, Nat.mod_lt _ (by decide),
            by simp only [writeSection]; rw [h1]; rfl⟩
        · exact h1

/-- With every candidate up to draw `fuel` live, `fuel` redraws are not enough. -/
theorem redraw_live_prefix (servers : Registry) :
    ∀ (fuel : Nat) (g : Rand), (∀ i, i ≤ fuel → (servers (candidateAt g i)).isSome = true) →
      redraw servers fuel (candidateAt g 0) (g.advance 1) = none := by
  intro fuel
  induction fuel with
  | zero => intro g h; simp [redraw, h 0]
  | succ fuel ih =>
    intro g h
    have hstep := ih (g.advance 1)
      (fun i hi => by rw [candidateAt_advance]; exact h (1 + i) (by omega))
    simp only [redraw, h 0 (by omega), if_true, Intn_fst, Intn_snd]
    rw [candidateAt_advance] at hstep
    rw [candidateAt_advance]
    exact hstep

theorem CreateServerListener_none_of_live (w : World) (m fuel : Nat)
    (h : ∀ i, i ≤ fuel → (w.r.servers (candidateAt w.r.rng i)).isSome = true) :
    CreateServerListener fuel w m = none := by
  have hr := redraw_live_prefix w.r.servers fuel w.r.rng h
  simp only [CreateServerListener, readSection, Intn_fst, Intn_snd, hr]

theorem fullRegistry_live (s : ServerListener) (g : Rand) (i : Nat) :
    (fullRegistry s (candidateAt g i)).isSome = true := by
  have : ∃ n, n < secretSpace ∧ candidateAt g i = Itoa ((n : Int) + 1) :=
    ⟨g.src (g.pos + i) % secretSpace, Nat.mod_lt _ (by decide), rfl⟩
  simp [fullRegistry, this]

/-- Keys of a reachable registry are candidate secrets. -/
theorem Reachable_keys (w : World) (hw : Reachable w) :
    ∀ key s, w.r.servers key = some s → ∃ k, k < secretSpace ∧ key = Itoa ((k : Int) + 1) := by
  induction hw with
  | init w h => intro key s hk; rw [h key] at hk; cases hk
  | create fuel w m w1 s _ h ih =>
    intro key s0 hk
    obtain ⟨_, _, _, _, hother, hcand⟩ := CreateServerListener_post fuel w m w1 s h
    by_cases hkey : key = s.secret
    · rw [hkey]; exact hcand
    · rw [hother key hkey] at hk
      exact ih key s0 hk
  | close w m _ ih =>
    intro key s0 hk
    by_cases hkey : key = (w.conns m).secret
    · simp [Close, Registry.delete, hkey] at hk
    · simp [Close, Registry.delete, hkey] at hk
      exact ih key s0 hk

/-- No send happens for a message whose secret is not a key. -/
theorem routeMessage_miss {M : Type} (getSecret : Bytes → String × Option String)
    (proccessMessage : Bytes → M × Option String) (servers : Registry) (message : Bytes)
    (h : servers (getSecret message).1 = none) :
    sends (routeMessage getSecret proccessMessage servers message) = [] := by
  simp [routeMessage, h, sends]

/-- The sends of the task body, case by case. -/
theorem routeMessage_sends {M : Type} (getSecret : Bytes → String × Option String)
    (proccessMessage : Bytes → M × Option String) (servers : Registry) (message : Bytes) :
    sends (routeMessage getSecret proccessMessage servers message) =
      match servers (getSecret message).1, (proccessMessage message).2 with
      | some s, none => [(s, (proccessMessage message).1)]
      | _, _ => [] := by
  cases h1 : servers (getSecret message).1 with
  | none => simp [routeMessage, h1, sends]
  | some s =>
    cases h2 : (proccessMessage message).2 with
    | none => simp [routeMessage, h1, h2, sends]
    | some e => simp [routeMessage, h1, h2, sends]

/-- Closing twice in a row leaves the registry as the first close left it. -/
theorem Close_Close_servers (w : World) (m : Nat) :
    (Close (Close w m) m).r.servers = (Close w m).r.servers := by
  funext k
  by_cases hk : k = (w.conns m).secret <;> simp [Close, Registry.delete, send, hk]

/-! ## Claims -/

/-- C1: for a successfully read datagram, the routing task of `readStrings`
sends on a listener's `Messages` channel exactly when the registry maps the
secret returned by `getSecret` to that listener and `proccessMessage`
succeeds; it then performs exactly one send, of the parsed message, to that
listener; in every other case it sends nothing; the registry is left
unchanged in all cases. -/
theorem readStringsTask_delivery {M : Type} (getSecret : Bytes → String × Option String)
    (proccessMessage : Bytes → M × Option String) (w : World) (buff : Bytes) (n : Nat) :
    (readStringsTask getSecret proccessMessage w buff n none).1 = w ∧
    (∀ s, (∃ msg, (s, msg) ∈ sends (readStringsTask getSecret proccessMessage w buff n none).2) ↔
      (w.r.servers (getSecret (buff.take n)).1 = some s ∧
        (proccessMessage (buff.take n)).2 = none)) ∧
    (∀ s, w.r.servers (getSecret (buff.take n)).1 = some s →
      (proccessMessage (buff.take n)).2 = none →
      sends (readStringsTask getSecret proccessMessage w buff n none).2
        = [(s, (proccessMessage (buff.take n)).1)]) ∧
    (w.r.servers (getSecret (buff.take n)).1 = none ∨
      (proccessMessage (buff.take n)).2 ≠ none →
      sends (readStringsTask getSecret proccessMessage w buff n none).2 = []) := by
  have hs := routeMessage_sends getSecret proccessMessage w.r.servers (buff.take n)
  have htask : (readStringsTask getSecret proccessMessage w buff n none).2 =
      routeMessage getSecret proccessMessage w.r.servers (buff.take n) := rfl
  rw [htask]
  refine ⟨rfl, ?_, ?_, ?_⟩
  · intro s
    rw [hs]
    cases h1 : w.r.servers (getSecret (buff.take n)).1 with
    | none => simp
    | some s0 =>
      cases h2 : (proccessMessage (buff.take n)).2 with
      | none =>
        simp only [List.mem_singleton, Prod.mk.injEq, Option.some.injEq, and_true]
        constructor
        · rintro ⟨_, h, _⟩; exact h.symm
        · intro h; exact ⟨_, h.symm, rfl⟩
      | some e => simp
  · intro s h1 h2
    rw [hs, h1, h2]
  · intro h
    rw [hs]
    rcases h with h | h
    · rw [h]
    · cases h1 : w.r.servers (getSecret (buff.take n)).1 with
      | none => rfl
      | some s0 =>
        cases h2 : (proccessMessage (buff.take n)).2 with
        | none => exact absurd h2 h
        | some e => rfl

theorem readStringsTask_delivery_witness :
    sends (readStringsTask (secretOfBytes none) parseBytes (busyWorld (fun _ => 41)) [52, 50] 2 none).2
      = [(⟨0, "0", "42"⟩, (parseBytes (List.take 2 [52, 50])).1)] :=
  (readStringsTask_delivery (secretOfBytes none) parseBytes (busyWorld (fun _ => 41)) [52, 50] 2).2.2.1
    ⟨0, "0", "42"⟩ (by decide) (by decide)

/-- C2 fails on the code: two calls on connections 0 and 1 whose draws both
give 41, interleaved read section, read section, insertion, insertion (then
the two configurations), both return a listener with secret `"42"`, and the
registry entry for `"42"` is the second listener, not the first. -/
theorem concurrent_create_collision :
    (runSchedule 0 (freshWorld (fun _ => 41)) [⟨0, .start⟩, ⟨1, .start⟩] [0, 1, 0, 1, 0, 1]).map
        (fun out => (out.2, out.1.r.servers "42"))
      = some ([⟨0, .returned ⟨0, "0", "42"⟩⟩, ⟨1, .returned ⟨1, "1", "42"⟩⟩],
          some ⟨1, "1", "42"⟩) := by
  decide

/-- C3: run alone on a draw sequence with a free candidate (so that the redraw
loop ends), `CreateServerListener` returns, and the secret of the returned
listener was not a key before the call; afterwards the registry maps that
secret to the returned listener, the connection stores the same secret, and
every entry present before the call is unchanged. -/
theorem createServerListener_fresh (w : World) (m j : Nat)
    (hfree : w.r.servers (candidateAt w.r.rng j) = none) :
    (∃ w1 s, ∀ fuel, j ≤ fuel → CreateServerListener fuel w m = some (w1, s)) ∧
    ∀ fuel w1 s, CreateServerListener fuel w m = some (w1, s) →
      w.r.servers s.secret = none ∧ w1.r.servers s.secret = some s ∧
      (w1.conns m).secret = s.secret ∧
      ∀ k s0, w.r.servers k = some s0 → w1.r.servers k = some s0 := by
  constructor
  · obtain ⟨j0, hle, hfree0, hlive0⟩ := first_free w.r.servers w.r.rng j hfree
    exact ⟨(createdAt w m j0).1, (createdAt w m j0).2, fun fuel hf =>
      CreateServerListener_first_free w m j0 fuel (by omega) hlive0 hfree0⟩
  · intro fuel w1 s h
    obtain ⟨h1, h2, h3, h4, _, _⟩ := CreateServerListener_post fuel w m w1 s h
    exact ⟨h1, h2, h3, h4⟩

theorem createServerListener_fresh_witness :
    (busyWorld (fun i => 41 + i)).r.servers (candidateAt (busyWorld (fun i => 41 + i)).r.rng 1) = none ∧
    ((∃ w1 s, ∀ fuel, 1 ≤ fuel →
        CreateServerListener fuel (busyWorld (fun i => 41 + i)) 1 = some (w1, s)) ∧
      ∀ fuel w1 s, CreateServerListener fuel (busyWorld (fun i => 41 + i)) 1 = some (w1, s) →
        (busyWorld (fun i => 41 + i)).r.servers s.secret = none ∧
        w1.r.servers s.secret = some s ∧ (w1.conns 1).secret = s.secret ∧
        ∀ k s0, (busyWorld (fun i => 41 + i)).r.servers k = some s0 →
          w1.r.servers k = some s0) :=
  ⟨by decide, createServerListener_fresh (busyWorld (fun i => 41 + i)) 1 1 (by decide)⟩

/-- C4 fails on the code: with `"42"` registered, a datagram for which
`getSecret` returns `"42"` together with an error is still parsed and sent
to the listener of `"42"`. -/
theorem readStringsTask_ignores_secret_error :
    sends (readStringsTask (secretOfBytes (some "malformed secret")) parseBytes
        (busyWorld (fun _ => 41)) [52, 50] 2 none).2
      = [(⟨0, "0", "42"⟩, [52, 50])] := by
  decide

/-- C5: after `Close(m)` the registry has no entry for `m.secret` (which the
connection still stores), so the routing task sends nothing for a datagram
whose extracted secret is `m.secret`, whatever the read error and the parser,
the liveness check of the redraw loop accepts that secret as free, and a
later `CreateServerListener` whose first candidate is that secret returns a
listener with it, without a redraw. -/
theorem close_unregisters (w : World) (m : Nat) :
    (Close w m).r.servers (w.conns m).secret = none ∧
    ((Close w m).conns m).secret = (w.conns m).secret ∧
    (∀ (M : Type) (getSecret : Bytes → String × Option String)
        (proccessMessage : Bytes → M × Option String) (buff : Bytes) (n : Nat)
        (err : Option ReadErr),
      (getSecret (buff.take n)).1 = (w.conns m).secret →
      sends (readStringsTask getSecret proccessMessage (Close w m) buff n err).2 = []) ∧
    (∀ (fuel : Nat) (g : Rand),
      redraw (Close w m).r.servers fuel (w.conns m).secret g = some ((w.conns m).secret, g)) ∧
    (∀ (fuel m2 : Nat), candidateAt (Close w m).r.rng 0 = (w.conns m).secret →
      CreateServerListener fuel (Close w m) m2 = some (createdAt (Close w m) m2 0) ∧
      (createdAt (Close w m) m2 0).2.secret = (w.conns m).secret) := by
  have hnone : (Close w m).r.servers (w.conns m).secret = none := by
    simp [Close, Registry.delete]
  refine ⟨hnone, ?_, ?_, ?_, ?_⟩
  · simp [Close, send]
  · intro M getSecret proccessMessage buff n err hsec
    have hmiss := routeMessage_miss getSecret proccessMessage (Close w m).r.servers
      (buff.take n) (by rw [hsec]; exact hnone)
    cases err with
    | none => exact hmiss
    | some e =>
      by_cases he : (e.opError && e.timeout) = true
      · simp [readStringsTask, he, sends]
      · simp only [readStringsTask, he, sends]
        exact hmiss
  · intro fuel g
    cases fuel <;> simp [redraw, hnone]
  · intro fuel m2 hcand
    refine ⟨CreateServerListener_first_free (Close w m) m2 0 fuel (Nat.zero_le _)
      (fun i hi => absurd hi (Nat.not_lt_zero i)) (by rw [hcand]; exact hnone), ?_⟩
    simp only [createdAt, writeSection]
    exact hcand

theorem close_unregisters_witness :
    candidateAt (Close (busyWorld (fun _ => 41)) 0).r.rng 0
      = ((busyWorld (fun _ => 41)).conns 0).secret ∧
    CreateServerListener 0 (Close (busyWorld (fun _ => 41)) 0) 1
      = some (createdAt (Close (busyWorld (fun _ => 41)) 0) 1 0) ∧
    (createdAt (Close (busyWorld (fun _ => 41)) 0) 1 0).2.secret = "42" :=
  ⟨by decide, (close_unregisters (busyWorld (fun _ => 41)) 0).2.2.2.2 0 1 (by decide)⟩

/-- C6 fails on the code: connection 0 registers (`"42"`) and closes,
connection 1 registers and draws `"42"` again, and a second `Close` of
connection 0 removes the entry of connection 1. -/
theorem close_twice_after_reuse :
    ∃ w1 s0 w2 s1,
      CreateServerListener 0 (freshWorld (fun _ => 41)) 0 = some (w1, s0) ∧
      CreateServerListener 0 (Close w1 0) 1 = some (w2, s1) ∧
      s1 = ⟨1, "1", "42"⟩ ∧ w2.r.servers "42" = some s1 ∧
      (Close w2 0).r.servers "42" = none :=
  ⟨_, _, _, _, rfl, rfl, by decide, by decide, by decide⟩

/-- C7 fails on the code: when the address resolves and `net.ListenUDP` fails,
`NewRconChatListener` returns a listener (with a nil `conn`) and a nil error;
the bind error is only logged. No read task is started. -/
theorem newRconChatListener_bind_failure :
    ((NewRconChatListener (fun _ => .ok 0) (fun _ => .error "address already in use")
        (fun _ => 41) "10.0.0.1" "12345").1.map (fun r => r.conn) = some none) ∧
    (NewRconChatListener (fun _ => .ok 0) (fun _ => .error "address already in use")
        (fun _ => 41) "10.0.0.1" "12345").2.1 = none ∧
    (NewRconChatListener (fun _ => .ok 0) (fun _ => .error "address already in use")
        (fun _ => 41) "10.0.0.1" "12345").2.2 = [.logged "address already in use"] := by
  decide

/-- C8 fails on the code: after a read error that is not a timeout the task
prints the error and goes on. With returned length 0 it still calls
`getSecret` on the empty slice; with `"42"` registered and the bytes of
`"42"` in the buffer (length 2) it calls both parser functions and sends to
the listener of `"42"`. -/
theorem readStringsTask_after_read_error :
    parserCalls (readStringsTask (secretOfBytes none) parseBytes
        (busyWorld (fun _ => 41)) [52, 50] 0 (some ⟨true, false⟩)).2 = 1 ∧
    parserCalls (readStringsTask (secretOfBytes none) parseBytes
        (busyWorld (fun _ => 41)) [52, 50] 2 (some ⟨true, false⟩)).2 = 2 ∧
    sends (readStringsTask (secretOfBytes none) parseBytes
        (busyWorld (fun _ => 41)) [52, 50] 2 (some ⟨true, false⟩)).2
      = [(⟨0, "0", "42"⟩, [52, 50])] := by
  decide

/-- C9 as stated fails: with every secret `1..999998` live, no number of
redraws makes `CreateServerListener` return; it neither stops at a bound nor
reports an error. -/
theorem createServerListener_never_gives_up :
    ¬ ∃ fuel, (CreateServerListener fuel (fullWorld (fun i => i)) 0).isSome = true := by
  rintro ⟨fuel, h⟩
  have hlive : ∀ i, i ≤ fuel → ((fullWorld (fun i => i)).r.servers
      (candidateAt (fullWorld (fun i => i)).r.rng i)).isSome = true := by
      intro i _
      simp only [fullWorld]
      exact fullRegistry_live _ _ i
  have hn := CreateServerListener_none_of_live (fullWorld (fun i => i)) 0 fuel hlive
  rw [hn] at h
  cases h

/-- C9 (as the code has it): secret generation has no retry bound and no
exhausted-secret-space error. It redraws until a candidate is not a registry
key: when the first free candidate is draw `j`, the call returns the listener
for that candidate after one first draw and exactly `j` redraws (fewer
redraws do not end the loop); when every candidate of the draw sequence is
live, the call does not return, whatever the number of redraws allowed. -/
theorem createServerListener_redraws (w : World) (m : Nat) :
    (∀ j, (∀ i, i < j → (w.r.servers (candidateAt w.r.rng i)).isSome = true) →
      w.r.servers (candidateAt w.r.rng j) = none →
      (∀ fuel, j ≤ fuel → CreateServerListener fuel w m = some (createdAt w m j)) ∧
      (∀ fuel, fuel < j → CreateServerListener fuel w m = none) ∧
      (createdAt w m j).2.secret = candidateAt w.r.rng j ∧
      (createdAt w m j).1.r.rng.pos = w.r.rng.pos + 1 + j) ∧
    ((∀ i, (w.r.servers (candidateAt w.r.rng i)).isSome = true) →
      ∀ fuel, CreateServerListener fuel w m = none) := by
  constructor
  · intro j hlive hfree
    refine ⟨fun fuel hf => CreateServerListener_first_free w m j fuel hf hlive hfree,
      fun fuel hf => CreateServerListener_none_of_live w m fuel
        (fun i hi => hlive i (by omega)), rfl, ?_⟩
    simp [createdAt, writeSection, configure, Rand.advance]
    omega
  · intro hall fuel
    exact CreateServerListener_none_of_live w m fuel (fun i _ => hall i)

theorem createServerListener_redraws_witness :
    (∀ fuel, 1 ≤ fuel →
      CreateServerListener fuel (busyWorld (fun i => 41 + i)) 1
        = some (createdAt (busyWorld (fun i => 41 + i)) 1 1)) ∧
    (∀ fuel, fuel < 1 → CreateServerListener fuel (busyWorld (fun i => 41 + i)) 1 = none) ∧
    (createdAt (busyWorld (fun i => 41 + i)) 1 1).2.secret
      = candidateAt (busyWorld (fun i => 41 + i)).r.rng 1 ∧
    (createdAt (busyWorld (fun i => 41 + i)) 1 1).1.r.rng.pos
      = (busyWorld (fun i => 41 + i)).r.rng.pos + 1 + 1 :=
  (createServerListener_redraws (busyWorld (fun i => 41 + i)) 1).1 1 (by decide) (by decide)

/-- C10: for every draw `k < 999998` the candidate `Itoa(k + 1)` is the decimal
representation (digits only, no leading zero) of `k + 1`, which lies in
`1..999998`, and has at most six characters; every candidate drawn by
`CreateServerListener` is of that form; hence every key of a reachable
registry is a non-empty string of at most six decimal digits. -/
theorem secret_format :
    (∀ k, k < secretSpace →
      IsDecimalOf (Itoa ((k : Int) + 1)) (k + 1) ∧ 1 ≤ k + 1 ∧ k + 1 ≤ 999998 ∧
        (Itoa ((k : Int) + 1)).length ≤ 6) ∧
    (∀ (g : Rand) (i : Nat), ∃ n, 1 ≤ n ∧ n ≤ 999998 ∧ IsDecimalOf (candidateAt g i) n) ∧
    (∀ w, Reachable w → ∀ key s, w.r.servers key = some s →
      1 ≤ key.length ∧ key.length ≤ 6 ∧ key.data.all isDecDigit = true) := by
  refine ⟨?_, ?_, ?_⟩
  · intro k hk
    obtain ⟨h1, h2⟩ := Itoa_candidate k hk
    have : k < 999998 := hk
    exact ⟨h1, by omega, by omega, h2⟩
  · intro g i
    have hk : g.src (g.pos + i) % secretSpace < secretSpace := Nat.mod_lt _ (by decide)
    have hk2 : g.src (g.pos + i) % secretSpace < 999998 := hk
    exact ⟨g.src (g.pos + i) % secretSpace + 1, by omega, by omega, (Itoa_candidate _ hk).1⟩
  · intro w hw key s hkey
    obtain ⟨k, hk, rfl⟩ := Reachable_keys w hw key s hkey
    obtain ⟨⟨hne, hall, _, _⟩, hlen⟩ := Itoa_candidate k hk
    refine ⟨?_, hlen, hall⟩
    rw [String.length]
    exact List.length_pos.mpr hne

theorem secret_format_witness :
    IsDecimalOf (Itoa ((41 : Nat) + 1)) (41 + 1) ∧ 1 ≤ 41 + 1 ∧ 41 + 1 ≤ 999998 ∧
      (Itoa ((41 : Nat) + 1)).length ≤ 6 :=
  secret_format.1 41 (by decide)

end TF2RconWrapper
